import Mathlib

/-!
# Verification of the tally-extension cross-context action relay and
# service-orchestration subsystem

Shallow embedding of `src/background/redux-slices/utils.ts` and
`src/background/main.ts`, together with spec-modelled definitions for the
parts of the repository that are referenced from those files but whose
sources are not available here (`encodeJSON` / `decodeJSON` from
`src/background/lib/utils.ts`, the redux-toolkit `createAsyncThunk`
lifecycle, and the `BaseService` start/stop machinery).
-/

namespace Tally

/-! ## Serialization codec

Modelled from the spec: `encodeJSON` / `decodeJSON` live in
`src/background/lib/utils.ts`, which is not among the available sources.
The spec (§4.1) says: primitives other than extended-precision integers
pass through unchanged; extended-precision integers (bigints) are tagged
so they can be distinguished from ordinary numbers on decode; ordered
sequences and string-keyed mappings are walked recursively and reassembled
with the same shape; `decode` fails with a ParseError if the text is not
valid encoded JSON or contains a malformed tag.

`JSValue` is the domain of values: null, booleans, ordinary numbers,
extended-precision integers (bigint), strings, ordered sequences and
string-keyed mappings, arbitrarily nested. Numbers are modelled as `Int`
(the codec passes them through unchanged, so their internal arithmetic
never matters here). `Wire` is the JSON-compatible wire form: it has no
bigint, only the tagged representative `taggedBigint`. -/

inductive JSValue where
  | null : JSValue
  | bool (b : Bool) : JSValue
  | num (n : Int) : JSValue
  | bigint (n : Int) : JSValue
  | str (s : String) : JSValue
  | arr (xs : List JSValue) : JSValue
  | obj (fields : List (String × JSValue)) : JSValue


inductive Wire where
  | null : Wire
  | bool (b : Bool) : Wire
  | num (n : Int) : Wire
  | taggedBigint (n : Int) : Wire
  | str (s : String) : Wire
  | arr (xs : List Wire) : Wire
  | obj (fields : List (String × Wire)) : Wire


mutual

def encodeWire : JSValue → Wire
  | .null => .null
  | .bool b => .bool b
  | .num n => .num n
  | .bigint n => .taggedBigint n
  | .str s => .str s
  | .arr xs => .arr (encodeWireList xs)
  | .obj fs => .obj (encodeWireFields fs)

def encodeWireList : List JSValue → List Wire
  | [] => []
  | v :: vs => encodeWire v :: encodeWireList vs

def encodeWireFields : List (String × JSValue) → List (String × Wire)
  | [] => []
  | (k, v) :: fs => (k, encodeWire v) :: encodeWireFields fs

end

mutual

def decodeWire : Wire → JSValue
  | .null => .null
  | .bool b => .bool b
  | .num n => .num n
  | .taggedBigint n => .bigint n
  | .str s => .str s
  | .arr xs => .arr (decodeWireList xs)
  | .obj fs => .obj (decodeWireFields fs)

def decodeWireList : List Wire → List JSValue
  | [] => []
  | w :: ws => decodeWire w :: decodeWireList ws

def decodeWireFields : List (String × Wire) → List (String × JSValue)
  | [] => []
  | (k, w) :: fs => (k, decodeWire w) :: decodeWireFields fs

end

/-- `PersistedText` models the strings that flow through the codec and the
blob store. A string is either the empty string, some other string that is
not valid encoded JSON, or valid encoded JSON, represented by the `Wire`
it parses to. Modelled from the spec: the concrete textual JSON grammar is
part of `src/background/lib/utils.ts`, which is not available; only the
three classes of text matter to the code under verification. -/
inductive PersistedText where
  | emptyStr : PersistedText
  | invalid (s : String) : PersistedText
  | wire (w : Wire) : PersistedText


/-- `encodeJSON(value)` from `lib/utils.ts`, modelled from the spec: it
produces the JSON text of the wire form of the value. Encoded output is
always valid JSON text. -/
def encodeJSON (v : JSValue) : PersistedText :=
  .wire (encodeWire v)

/-- `decodeJSON(text)` from `lib/utils.ts`, modelled from the spec: the
inverse transform; fails with a ParseError if the text is not valid
encoded JSON. The empty string is not valid JSON. -/
def decodeJSON : PersistedText → Except String JSValue
  | .emptyStr => .error "ParseError"
  | .invalid _ => .error "ParseError"
  | .wire w => .ok (decodeWire w)

mutual

theorem decodeWire_encodeWire : ∀ v : JSValue, decodeWire (encodeWire v) = v
  | .null => by simp [encodeWire, decodeWire]
  | .bool b => by simp [encodeWire, decodeWire]
  | .num n => by simp [encodeWire, decodeWire]
  | .bigint n => by simp [encodeWire, decodeWire]
  | .str s => by simp [encodeWire, decodeWire]
  | .arr xs => by simp [encodeWire, decodeWire, decodeWireList_encodeWireList xs]
  | .obj fs => by simp [encodeWire, decodeWire, decodeWireFields_encodeWireFields fs]

theorem decodeWireList_encodeWireList :
    ∀ xs : List JSValue, decodeWireList (encodeWireList xs) = xs
  | [] => by simp [encodeWireList, decodeWireList]
  | v :: vs => by
      simp [encodeWireList, decodeWireList, decodeWire_encodeWire v,
        decodeWireList_encodeWireList vs]

theorem decodeWireFields_encodeWireFields :
    ∀ fs : List (String × JSValue), decodeWireFields (encodeWireFields fs) = fs
  | [] => by simp [encodeWireFields, decodeWireFields]
  | (k, v) :: fs => by
      simp [encodeWireFields, decodeWireFields, decodeWire_encodeWire v,
        decodeWireFields_encodeWireFields fs]

end

/-- C4: for every value composed of null, booleans, ordinary numbers,
strings, extended-precision integers, ordered sequences and string-keyed
mappings, arbitrarily nested, `decode (encode v)` is structurally equal to
`v`; in particular an encoded bigint decodes back to a bigint, which is a
value distinct from the plain number of the same magnitude. -/
theorem codec_roundtrip_structural (v : JSValue) (n : Int) :
    decodeJSON (encodeJSON v) = Except.ok v ∧
    decodeJSON (encodeJSON (JSValue.bigint n)) = Except.ok (JSValue.bigint n) ∧
    JSValue.bigint n ≠ JSValue.num n := by
  refine ⟨?_, ?_, ?_⟩
  · simp [encodeJSON, decodeJSON, decodeWire_encodeWire]
  · simp [encodeJSON, decodeJSON, decodeWire_encodeWire]
  · intro h
    exact JSValue.noConfusion h

/-! ## Async lifecycle wrapper and alias registry

Embedding of `createBackgroundAsyncThunk` and `allAliases` from
`src/background/redux-slices/utils.ts`.

The dispatch behaviour of the thunk built by redux-toolkit's
`createAsyncThunk` is external library code; it is modelled from the spec
(§4.3) and from the doc comment on `createBackgroundAsyncThunk` itself:
the handler optionally evaluates a skip condition from `options` and, if
it signals skip, dispatches nothing; otherwise it dispatches
Pending{typePrefix, argument}, invokes the operation, and dispatches
Fulfilled{typePrefix, argument, result} on success or
Rejected{typePrefix, argument, reason} on a thrown error or rejection,
which is thereby captured rather than escaping.

A JS async operation that may throw or reject is modelled as a function
into `Except Err Res`; the handler itself returns a plain list of
dispatched lifecycle actions, so a failure of the operation can never
escape it. -/

/-- A plain redux action `{type, payload}` as produced in the
non-privileged context. -/
structure PlainAction (Arg : Type) where
  type : String
  payload : Arg
deriving DecidableEq, Repr

/-- The three lifecycle actions of one async-thunk invocation. -/
inductive LifecycleAction (Arg Res Err : Type) where
  | pending (typePrefix : String) (arg : Arg)
  | fulfilled (typePrefix : String) (arg : Arg) (result : Res)
  | rejected (typePrefix : String) (arg : Arg) (reason : Err)
deriving DecidableEq, Repr

/-- The `options` argument of `createAsyncThunk`, restricted to the part
the spec describes: an optional skip condition evaluated on the argument
before any lifecycle action is dispatched. -/
structure AsyncThunkOptions (Arg : Type) where
  condition : Option (Arg → Bool)

/-- Whether the optional skip condition lets the thunk body run. Absent
options or an absent condition always pass. -/
def thunkConditionPasses {Arg : Type} (options : Option (AsyncThunkOptions Arg))
    (arg : Arg) : Bool :=
  match options with
  | none => true
  | some opts =>
    match opts.condition with
    | none => true
    | some c => c arg

/-- The lifecycle dispatches of a non-skipped thunk body: Pending, then
the terminal action chosen by how the operation settles. -/
def asyncThunkDispatches {Arg Res Err : Type} (typePrefix : String)
    (payloadCreator : Arg → Except Err Res) (arg : Arg) :
    List (LifecycleAction Arg Res Err) :=
  match payloadCreator arg with
  | .ok result => [.pending typePrefix arg, .fulfilled typePrefix arg result]
  | .error reason => [.pending typePrefix arg, .rejected typePrefix arg reason]

/-- Modelled from the spec: running the thunk built by redux-toolkit's
`createAsyncThunk typePrefix payloadCreator options` on one argument, as
observed through the dispatches it produces on the store. -/
def runAsyncThunk {Arg Res Err : Type} (typePrefix : String)
    (payloadCreator : Arg → Except Err Res)
    (options : Option (AsyncThunkOptions Arg)) (arg : Arg) :
    List (LifecycleAction Arg Res Err) :=
  if thunkConditionPasses options arg then
    asyncThunkDispatches typePrefix payloadCreator arg
  else []

/-- The values stored in `allAliases`: a function from a relayed plain
action to the async thunk invocation it triggers in the background,
observed through its lifecycle dispatches. -/
abbrev AliasHandler (Arg Res Err : Type) : Type :=
  PlainAction Arg → List (LifecycleAction Arg Res Err)

/-- The `allAliases` record of `utils.ts` (line 30): a string-keyed
mapping from type prefixes to alias handlers, modelled as an association
list in insertion order. -/
abbrev AliasRegistry (Arg Res Err : Type) : Type :=
  List (String × AliasHandler Arg Res Err)

/-- JS property read `allAliases[typePrefix]`. -/
def lookupAlias {Arg Res Err : Type} :
    AliasRegistry Arg Res Err → String → Option (AliasHandler Arg Res Err)
  | [], _ => none
  | (k, h) :: rest, typePrefix =>
      if k = typePrefix then some h else lookupAlias rest typePrefix

/-- JS property write `allAliases[typePrefix] = handler` on a key that is
not yet present: the entry is appended. -/
def insertAlias {Arg Res Err : Type} (reg : AliasRegistry Arg Res Err)
    (typePrefix : String) (handler : AliasHandler Arg Res Err) :
    AliasRegistry Arg Res Err :=
  reg ++ [(typePrefix, handler)]

/-- The handler registered by `createBackgroundAsyncThunk` (utils.ts lines
144-145): `(action) => baseThunkActionCreator(action.payload)`, where
`baseThunkActionCreator` is the thunk built by `createAsyncThunk`. -/
def registeredAliasHandler {Arg Res Err : Type} (typePrefix : String)
    (payloadCreator : Arg → Except Err Res)
    (options : Option (AsyncThunkOptions Arg)) : AliasHandler Arg Res Err :=
  fun action => runAsyncThunk typePrefix payloadCreator options action.payload

/-- The wrapped top-level action creator of utils.ts lines 130-134:
`(payload) => ({type: typePrefix, payload})`. The utility props copied
onto it (`pending`, `fulfilled`, `rejected`, `typePrefix`) live on the
function object, not in its return value, and play no role in the claims
below. -/
def webextActionCreator {Arg : Type} (typePrefix : String) :
    Arg → PlainAction Arg :=
  fun payload => ⟨typePrefix, payload⟩

/-- `createBackgroundAsyncThunk` (utils.ts lines 105-148) as a transition
on the `allAliases` registry. A thrown JS error is the `Except.error`
branch: the duplicate check at lines 118-120 runs before the thunk is
constructed and before the registry is touched. On success it returns the
updated registry together with the returned webext action creator. -/
def createBackgroundAsyncThunk {Arg Res Err : Type} (typePrefix : String)
    (payloadCreator : Arg → Except Err Res)
    (options : Option (AsyncThunkOptions Arg))
    (allAliases : AliasRegistry Arg Res Err) :
    Except String (AliasRegistry Arg Res Err × (Arg → PlainAction Arg)) :=
  if (lookupAlias allAliases typePrefix).isSome then
    .error "Attempted to register an alias twice."
  else
    .ok
      (insertAlias allAliases typePrefix
        (registeredAliasHandler typePrefix payloadCreator options),
        webextActionCreator typePrefix)

/-- The state of the module-level `allAliases` map after a call to
`createBackgroundAsyncThunk`: a thrown error leaves the map as it was. -/
def registryAfterCreate {Arg Res Err : Type} (typePrefix : String)
    (payloadCreator : Arg → Except Err Res)
    (options : Option (AsyncThunkOptions Arg))
    (reg : AliasRegistry Arg Res Err) : AliasRegistry Arg Res Err :=
  match createBackgroundAsyncThunk typePrefix payloadCreator options reg with
  | .ok (newReg, _) => newReg
  | .error _ => reg

/-- Number of registry entries stored under a given type prefix. -/
def countAlias {Arg Res Err : Type} (reg : AliasRegistry Arg Res Err)
    (typePrefix : String) : Nat :=
  reg.countP (fun p => decide (p.1 = typePrefix))

theorem lookupAlias_insert_self {Arg Res Err : Type}
    {reg : AliasRegistry Arg Res Err} {typePrefix : String}
    (h : lookupAlias reg typePrefix = none)
    (handler : AliasHandler Arg Res Err) :
    lookupAlias (insertAlias reg typePrefix handler) typePrefix = some handler := by
  induction reg with
  | nil => simp [insertAlias, lookupAlias]
  | cons p rest ih =>
    obtain ⟨k, h0⟩ := p
    by_cases hk : k = typePrefix
    · simp [lookupAlias, hk] at h
    · simp only [lookupAlias, hk, if_neg] at h ⊢
      simpa [insertAlias, lookupAlias, hk] using ih h

theorem countAlias_eq_zero_of_lookup_none {Arg Res Err : Type}
    {reg : AliasRegistry Arg Res Err} {typePrefix : String}
    (h : lookupAlias reg typePrefix = none) :
    countAlias reg typePrefix = 0 := by
  induction reg with
  | nil => simp [countAlias]
  | cons p rest ih =>
    obtain ⟨k, h0⟩ := p
    by_cases hk : k = typePrefix
    · simp [lookupAlias, hk] at h
    · simp only [lookupAlias, hk, if_neg] at h
      simpa [countAlias, List.countP_cons, hk] using ih h

theorem countAlias_insert {Arg Res Err : Type}
    (reg : AliasRegistry Arg Res Err) (typePrefix : String)
    (handler : AliasHandler Arg Res Err) :
    countAlias (insertAlias reg typePrefix handler) typePrefix =
      countAlias reg typePrefix + 1 := by
  simp [countAlias, insertAlias, List.countP_append]

/-- C1, counterexample: the claim quantifies over every invocation of
every wrapped handler, but a handler wrapped with an `options` skip
condition that signals skip dispatches no lifecycle action at all — in
particular no Pending — so the claimed Pending-then-terminal sequence
fails for that invocation. -/
theorem thunk_skip_condition_counterexample :
    runAsyncThunk "X" (fun _ : Nat => (Except.ok 5 : Except String Nat))
        (some ⟨some (fun _ => false)⟩) 0 = ([] : List (LifecycleAction Nat Nat String)) ∧
    ¬ ∃ terminal : LifecycleAction Nat Nat String,
        runAsyncThunk "X" (fun _ : Nat => (Except.ok 5 : Except String Nat))
            (some ⟨some (fun _ => false)⟩) 0 =
          [LifecycleAction.pending "X" 0, terminal] := by
  constructor
  · simp [runAsyncThunk, thunkConditionPasses]
  · rintro ⟨terminal, ht⟩
    simp [runAsyncThunk, thunkConditionPasses] at ht

/-- C1, amended: for every invocation of a wrapped handler that is not
skipped by the optional `options` condition, the dispatch sequence is
exactly one Pending followed by exactly one terminal action — Fulfilled
with the result when the operation resolves, Rejected with the reason
when it throws or rejects; the failure is captured as the Rejected action
(the handler is a total function into dispatch lists, so it cannot escape
as an unhandled rejection). -/
theorem thunk_lifecycle_sequence {Arg Res Err : Type} (typePrefix : String)
    (payloadCreator : Arg → Except Err Res)
    (options : Option (AsyncThunkOptions Arg)) (arg : Arg)
    (hrun : thunkConditionPasses options arg = true) :
    (∀ result, payloadCreator arg = .ok result →
        runAsyncThunk typePrefix payloadCreator options arg =
          [LifecycleAction.pending typePrefix arg,
           LifecycleAction.fulfilled typePrefix arg result]) ∧
    (∀ reason, payloadCreator arg = .error reason →
        runAsyncThunk typePrefix payloadCreator options arg =
          [LifecycleAction.pending typePrefix arg,
           LifecycleAction.rejected typePrefix arg reason]) := by
  constructor <;> intro x hx <;> simp [runAsyncThunk, hrun, asyncThunkDispatches, hx]

/-- Witness for the amended C1: wrapping `"X"` around an operation that
resolves to `5` and invoking it (no skip condition) dispatches exactly
`Pending("X", 0)` then `Fulfilled("X", 0, 5)`. -/
theorem thunk_lifecycle_sequence_witness :
    runAsyncThunk "X" (fun _ : Nat => (Except.ok 5 : Except String Nat)) none 0 =
      [LifecycleAction.pending "X" 0, LifecycleAction.fulfilled "X" 0 5] :=
  (thunk_lifecycle_sequence "X" (fun _ : Nat => (Except.ok 5 : Except String Nat))
    none 0 rfl).1 5 rfl

/-- C2: with `typePrefix` not yet registered, `createBackgroundAsyncThunk`
succeeds, appending exactly one entry for `typePrefix` (the handler built
from the first payload creator) and returning the plain action creator; a
second call with the same `typePrefix` throws the duplicate-registration
error, and the registry afterwards still holds the first registration's
handler under `typePrefix`. -/
theorem register_alias_unique {Arg Res Err : Type}
    (reg : AliasRegistry Arg Res Err) (typePrefix : String)
    (pc1 pc2 : Arg → Except Err Res) (o1 o2 : Option (AsyncThunkOptions Arg))
    (hfresh : lookupAlias reg typePrefix = none) :
    createBackgroundAsyncThunk typePrefix pc1 o1 reg =
      .ok (insertAlias reg typePrefix (registeredAliasHandler typePrefix pc1 o1),
           webextActionCreator typePrefix) ∧
    countAlias (insertAlias reg typePrefix (registeredAliasHandler typePrefix pc1 o1))
        typePrefix = 1 ∧
    (∃ msg, createBackgroundAsyncThunk typePrefix pc2 o2
        (insertAlias reg typePrefix (registeredAliasHandler typePrefix pc1 o1)) =
          .error msg) ∧
    lookupAlias
        (registryAfterCreate typePrefix pc2 o2
          (insertAlias reg typePrefix (registeredAliasHandler typePrefix pc1 o1)))
        typePrefix =
      some (registeredAliasHandler typePrefix pc1 o1) := by
  have hlook := lookupAlias_insert_self hfresh (registeredAliasHandler typePrefix pc1 o1)
  refine ⟨?_, ?_, ⟨"Attempted to register an alias twice.", ?_⟩, ?_⟩
  · simp [createBackgroundAsyncThunk, hfresh]
  · rw [countAlias_insert, countAlias_eq_zero_of_lookup_none hfresh]
  · simp [createBackgroundAsyncThunk, hlook]
  · simp [registryAfterCreate, createBackgroundAsyncThunk, hlook]

/-- Witness for C2 at `typePrefix = "X"`, on the empty registry, with two
distinct payload creators. -/
theorem register_alias_unique_witness :
    countAlias
        (insertAlias ([] : AliasRegistry Nat Nat String) "X"
          (registeredAliasHandler "X" (fun n => Except.ok n) none)) "X" = 1 ∧
    (∃ msg, createBackgroundAsyncThunk "X" (fun n : Nat => (Except.ok (n + 1) : Except String Nat))
        none
        (insertAlias ([] : AliasRegistry Nat Nat String) "X"
          (registeredAliasHandler "X" (fun n => Except.ok n) none)) = .error msg) := by
  have h := register_alias_unique ([] : AliasRegistry Nat Nat String) "X"
    (fun n => Except.ok n) (fun n => Except.ok (n + 1)) none none rfl
  exact ⟨h.2.1, h.2.2.1⟩

/-- C9: a call to `createBackgroundAsyncThunk` with an already registered
`typePrefix` throws (no thunk or creator is ever produced) and leaves the
`allAliases` registry exactly as it was before the call. -/
theorem duplicate_register_leaves_registry {Arg Res Err : Type}
    (reg : AliasRegistry Arg Res Err) (typePrefix : String)
    (pc : Arg → Except Err Res) (o : Option (AsyncThunkOptions Arg))
    (hdup : (lookupAlias reg typePrefix).isSome = true) :
    (∃ msg, createBackgroundAsyncThunk typePrefix pc o reg = .error msg) ∧
    registryAfterCreate typePrefix pc o reg = reg := by
  refine ⟨⟨"Attempted to register an alias twice.", ?_⟩, ?_⟩ <;>
    simp [createBackgroundAsyncThunk, registryAfterCreate, hdup]

/-- Witness for C9: re-registering `"X"` on a one-entry registry leaves
that registry unchanged. -/
theorem duplicate_register_leaves_registry_witness :
    registryAfterCreate "X" (fun n : Nat => (Except.ok n : Except String Nat)) none
        [("X", fun _ => ([] : List (LifecycleAction Nat Nat String)))] =
      [("X", fun _ => ([] : List (LifecycleAction Nat Nat String)))] :=
  (duplicate_register_leaves_registry
    [("X", fun _ => ([] : List (LifecycleAction Nat Nat String)))] "X"
    (fun n => Except.ok n) none (by simp [lookupAlias])).2

/-- C3: whenever `createBackgroundAsyncThunk` returns an action creator,
calling that creator with a payload returns exactly the plain object
`{type: typePrefix, payload}`; the creator is the same function whatever
payload creator was supplied, so the async operation is never invoked in
the calling context. -/
theorem action_creator_plain_action {Arg Res Err : Type} (typePrefix : String)
    (pc pc' : Arg → Except Err Res) (o o' : Option (AsyncThunkOptions Arg))
    (reg reg' r r' : AliasRegistry Arg Res Err) (c c' : Arg → PlainAction Arg)
    (h1 : createBackgroundAsyncThunk typePrefix pc o reg = .ok (r, c))
    (h2 : createBackgroundAsyncThunk typePrefix pc' o' reg' = .ok (r', c')) :
    (∀ payload, c payload = ⟨typePrefix, payload⟩) ∧ c = c' := by
  by_cases hb1 : (lookupAlias reg typePrefix).isSome
  · simp [createBackgroundAsyncThunk, hb1] at h1
  · by_cases hb2 : (lookupAlias reg' typePrefix).isSome
    · simp [createBackgroundAsyncThunk, hb2] at h2
    · simp [createBackgroundAsyncThunk, hb1, hb2] at h1 h2
      obtain ⟨-, hc⟩ := h1
      obtain ⟨-, hc'⟩ := h2
      subst hc hc'
      exact ⟨fun payload => rfl, rfl⟩

/-- Witness for C3: the creator registered for `"X"` maps payload `7` to
the plain action `{type: "X", payload: 7}`. -/
theorem action_creator_plain_action_witness :
    webextActionCreator "X" (7 : Nat) = ⟨"X", 7⟩ := by
  have h := action_creator_plain_action "X"
    (fun n : Nat => (Except.ok n : Except String Nat))
    (fun n : Nat => (Except.ok (n + 1) : Except String Nat)) none none
    ([] : AliasRegistry Nat Nat String) ([] : AliasRegistry Nat Nat String)
    (insertAlias [] "X" (registeredAliasHandler "X" (fun n => Except.ok n) none))
    (insertAlias [] "X" (registeredAliasHandler "X" (fun n => Except.ok (n + 1)) none))
    (webextActionCreator "X") (webextActionCreator "X") rfl rfl
  exact h.1 7

/-! ## The chain-service `transaction` event handler

Embedding of the handler registered in `connectChainService`
(`src/background/main.ts` lines 264-277). The handler reads only
`transaction.blockHash` and `transaction.gasUsed` from the payload's
transaction and forwards the payload itself, so the model keeps exactly
those fields. JS `undefined`/`null` field values are `none`; the test
`"gasUsed" in transaction && transaction.gasUsed !== undefined` holds
exactly when `gasUsed` is a present, defined value, i.e. `isSome`. -/

structure ChainTransaction where
  blockHash : Option String
  gasUsed : Option Int
  hash : String
deriving DecidableEq, Repr

/-- The payload of a chain-service `transaction` event; the handler
destructures its `transaction` field and passes the payload through. -/
structure TransactionEventPayload where
  transaction : ChainTransaction
deriving DecidableEq, Repr

/-- The dispatches issued by the `transaction` handler. -/
inductive MainDispatch where
  | transactionConfirmed (tx : ChainTransaction)
  | transactionSeen (tx : ChainTransaction)
  | activityEncountered (payload : TransactionEventPayload)
deriving DecidableEq, Repr

/-- JS truthiness of an optional string: `undefined`, `null`, and the
empty string are falsy; every other string is truthy. -/
def jsTruthy : Option String → Bool
  | none => false
  | some s => !(s == "")

/-- The `transaction` event handler of main.ts lines 264-277, as the list
of store dispatches it performs, in order. -/
def onChainTransactionEvent (payload : TransactionEventPayload) :
    List MainDispatch :=
  let transaction := payload.transaction
  if jsTruthy transaction.blockHash && transaction.gasUsed.isSome then
    [MainDispatch.transactionConfirmed transaction,
     MainDispatch.activityEncountered payload]
  else
    [MainDispatch.transactionSeen transaction,
     MainDispatch.activityEncountered payload]

/-- C5: a `transaction` event dispatches `transactionConfirmed` when the
payload's transaction has a truthy block hash and a defined `gasUsed`
value, and `transactionSeen` otherwise; in both cases
`activityEncountered(payload)` is also dispatched (afterwards), and
nothing else is. -/
theorem transaction_event_dispatches (payload : TransactionEventPayload) :
    ((∃ s, payload.transaction.blockHash = some s ∧ s ≠ "") ∧
        payload.transaction.gasUsed ≠ none →
      onChainTransactionEvent payload =
        [MainDispatch.transactionConfirmed payload.transaction,
         MainDispatch.activityEncountered payload]) ∧
    (¬ ((∃ s, payload.transaction.blockHash = some s ∧ s ≠ "") ∧
        payload.transaction.gasUsed ≠ none) →
      onChainTransactionEvent payload =
        [MainDispatch.transactionSeen payload.transaction,
         MainDispatch.activityEncountered payload]) ∧
    MainDispatch.activityEncountered payload ∈ onChainTransactionEvent payload := by
  have hcond : (jsTruthy payload.transaction.blockHash &&
      payload.transaction.gasUsed.isSome) = true ↔
      ((∃ s, payload.transaction.blockHash = some s ∧ s ≠ "") ∧
        payload.transaction.gasUsed ≠ none) := by
    rcases hbh : payload.transaction.blockHash with _ | s <;>
      rcases hgu : payload.transaction.gasUsed with _ | g <;>
        simp [jsTruthy, hbh, hgu]
  refine ⟨?_, ?_, ?_⟩
  · intro h
    simp [onChainTransactionEvent, hcond.mpr h]
  · intro h
    have hb : (jsTruthy payload.transaction.blockHash &&
        payload.transaction.gasUsed.isSome) = false := by
      rcases hc : (jsTruthy payload.transaction.blockHash &&
          payload.transaction.gasUsed.isSome) with _ | _
      · rfl
      · exact absurd (hcond.mp hc) h
    simp [onChainTransactionEvent, hb]
  · rcases hc : (jsTruthy payload.transaction.blockHash &&
        payload.transaction.gasUsed.isSome) with _ | _ <;>
      simp [onChainTransactionEvent, hc]

/-- Witness for C5: a transaction with block hash `"0xabc"` and
`gasUsed = 21000` produces the confirmed-then-activity dispatch pair. -/
theorem transaction_event_dispatches_witness :
    onChainTransactionEvent ⟨⟨some "0xabc", some 21000, "0xfeed"⟩⟩ =
      [MainDispatch.transactionConfirmed ⟨some "0xabc", some 21000, "0xfeed"⟩,
       MainDispatch.activityEncountered ⟨⟨some "0xabc", some 21000, "0xfeed"⟩⟩] :=
  (transaction_event_dispatches ⟨⟨some "0xabc", some 21000, "0xfeed"⟩⟩).1
    ⟨⟨"0xabc", rfl, by decide⟩, by decide⟩

/-! ## The `reduxCache` middleware

Embedding of `reduxCache` (`src/background/main.ts` lines 67-78). In
redux, `next(action)` runs the rest of the middleware chain and the
reducers, after which `store.getState()` observes the updated state; a
single dispatch through the middleware is therefore modelled by a `next`
function from the action and the pre-dispatch state to the dispatch
result and the post-reducer state. The `browser.storage.local.set` call
is a fire-and-forget blob-store write, recorded as an emitted
key-to-encoded-text effect that the middleware does not await: the
returned `result` is `next(action)`'s result whatever the writes are. -/

def reduxCache {A R : Type} (writeReduxCache : String)
    (next : A → JSValue → R × JSValue) (action : A) (preState : JSValue) :
    R × JSValue × List (String × PersistedText) :=
  let result := (next action preState).1
  let state := (next action preState).2
  let writes :=
    if writeReduxCache = "true" then [("state", encodeJSON state)] else []
  (result, state, writes)

/-- The blob-store writes accumulated over a sequence of dispatches, the
post-state of each dispatch feeding the next. -/
def reduxCacheWrites {A R : Type} (writeReduxCache : String)
    (next : A → JSValue → R × JSValue) :
    List A → JSValue → List (String × PersistedText)
  | [], _ => []
  | action :: rest, preState =>
    (reduxCache writeReduxCache next action preState).2.2 ++
      reduxCacheWrites writeReduxCache next rest
        (reduxCache writeReduxCache next action preState).2.1

/-- C6: when `WRITE_REDUX_CACHE` is not `"true"` a dispatch performs no
blob-store write (and any sequence of dispatches performs none); when it
is `"true"` a dispatch performs exactly one write, of the codec-encoded
full post-reducer store state under the single key `"state"` (one write
per dispatch over a sequence); in both cases the dispatch result is
`next(action)`'s result, unaffected by the write. -/
theorem redux_cache_write_gating {A R : Type} (writeReduxCache : String)
    (next : A → JSValue → R × JSValue) (action : A) (preState : JSValue) :
    (writeReduxCache ≠ "true" →
      (reduxCache writeReduxCache next action preState).2.2 = [] ∧
      ∀ (actions : List A) (st : JSValue),
        reduxCacheWrites writeReduxCache next actions st = []) ∧
    (writeReduxCache = "true" →
      (reduxCache writeReduxCache next action preState).2.2 =
        [("state", encodeJSON (next action preState).2)] ∧
      ∀ (actions : List A) (st : JSValue),
        (reduxCacheWrites writeReduxCache next actions st).length =
          actions.length) ∧
    (reduxCache writeReduxCache next action preState).1 =
      (next action preState).1 := by
  refine ⟨?_, ?_, rfl⟩
  · intro hflag
    refine ⟨by simp [reduxCache, hflag], ?_⟩
    intro actions
    induction actions with
    | nil => intro st; simp [reduxCacheWrites]
    | cons a rest ih => intro st; simp [reduxCacheWrites, reduxCache, hflag, ih]
  · intro hflag
    subst hflag
    refine ⟨by simp [reduxCache], ?_⟩
    intro actions
    induction actions with
    | nil => intro st; simp [reduxCacheWrites]
    | cons a rest ih => intro st; simp [reduxCacheWrites, reduxCache, ih]

/-- Witness for C6: one dispatch with the flag off writes nothing; the
same dispatch with the flag on writes the encoded post-state once. -/
theorem redux_cache_write_gating_witness :
    (reduxCache "false" (fun (_ : Nat) (_ : JSValue) => (0, JSValue.null)) 1
        JSValue.null).2.2 = [] ∧
    (reduxCache "true" (fun (_ : Nat) (_ : JSValue) => (0, JSValue.null)) 1
        JSValue.null).2.2 = [("state", encodeJSON JSValue.null)] := by
  constructor
  · exact ((redux_cache_write_gating "false"
      (fun (_ : Nat) (_ : JSValue) => (0, JSValue.null)) 1 JSValue.null).1
        (by decide)).1
  · exact ((redux_cache_write_gating "true"
      (fun (_ : Nat) (_ : JSValue) => (0, JSValue.null)) 1 JSValue.null).2.1
        rfl).1

/-! ## The start phase of `Main`

Embedding of `internalStartService` (`src/background/main.ts` lines
223-237) as the set of orderings it imposes on completion events.
Modelled from the spec for the `BaseService` part: `startService` is an
awaitable start operation and `started()` a signal that resolves when
that service's start operation has completed, so a service's "started"
signal and the completion of its start operation are one event,
`startComplete`.

The code imposes exactly these orderings:
* `await Promise.all([...five startService() calls...])` (lines 228-234)
  runs before the method resolves, so each of the five `startComplete`
  events precedes `phaseComplete`;
* `this.indexingService.started().then(async () => this.chainService.started())`
  (line 226) builds a promise that resolves (`observerDone`) only after
  the indexing service has started and then the chain service has
  started — but that promise is never awaited, so nothing orders
  `observerDone` relative to `phaseComplete`, and it orders nothing
  among the five start operations themselves.

A trace is any interleaving of the completion events; `ValidStartTrace`
holds exactly for the interleavings the code permits. -/

inductive Svc where
  | preference
  | chain
  | indexing
  | keyring
  | name
deriving DecidableEq, Repr

def allServices : List Svc :=
  [.preference, .chain, .indexing, .keyring, .name]

inductive StartEvent where
  | startComplete (s : Svc)
  | observerDone
  | phaseComplete
deriving DecidableEq, Repr

def allStartEvents : List StartEvent :=
  [.startComplete .preference, .startComplete .chain, .startComplete .indexing,
   .startComplete .keyring, .startComplete .name, .observerDone, .phaseComplete]

/-- `e` happens before `f` in the trace `t`. -/
def precedes (t : List StartEvent) (e f : StartEvent) : Prop :=
  t.indexOf e < t.indexOf f

/-- The execution orders `internalStartService` permits: every event
occurs once, all five start completions precede the phase completion
(the awaited `Promise.all`), and the un-awaited observer chain of line
226 resolves only after both the indexing and the chain service have
started. No other ordering is imposed. -/
def ValidStartTrace (t : List StartEvent) : Prop :=
  t.Nodup ∧
  (∀ e ∈ allStartEvents, e ∈ t) ∧
  (∀ s ∈ allServices, precedes t (.startComplete s) .phaseComplete) ∧
  precedes t (.startComplete .indexing) .observerDone ∧
  precedes t (.startComplete .chain) .observerDone

instance (t : List StartEvent) (e f : StartEvent) : Decidable (precedes t e f) := by
  unfold precedes
  infer_instance

instance (t : List StartEvent) : Decidable (ValidStartTrace t) := by
  unfold ValidStartTrace precedes
  infer_instance

/-- C7, counterexample: the code permits an execution in which the chain
service's start operation completes before the indexing service has
started at all — the observer chain of line 226 is never awaited, so it
gates nothing. The trace below satisfies every ordering the code imposes,
yet the chain start completes first. -/
theorem start_order_counterexample :
    ValidStartTrace
      [.startComplete .chain, .startComplete .preference, .startComplete .keyring,
       .startComplete .name, .startComplete .indexing, .observerDone,
       .phaseComplete] ∧
    ¬ precedes
      [.startComplete .chain, .startComplete .preference, .startComplete .keyring,
       .startComplete .name, .startComplete .indexing, .observerDone,
       .phaseComplete]
      (.startComplete .indexing) (.startComplete .chain) := by
  decide

/-- C7, amended: all five start operations are invoked concurrently and
the start phase completes only after all five have settled; no ordering
is imposed among the five start operations themselves — in particular
both relative orders of the indexing and chain start completions are
permitted. The indexing-then-chain observer of line 226 is not awaited
and does not delay the chain service's start completion. -/
theorem start_phase_orderings :
    (∀ t, ValidStartTrace t →
      ∀ s ∈ allServices, precedes t (.startComplete s) .phaseComplete) ∧
    (∃ t, ValidStartTrace t ∧
      precedes t (.startComplete .indexing) (.startComplete .chain)) ∧
    (∃ t, ValidStartTrace t ∧
      precedes t (.startComplete .chain) (.startComplete .indexing)) := by
  refine ⟨fun t ht => ht.2.2.1, ?_, ?_⟩
  · exact ⟨[.startComplete .indexing, .startComplete .preference,
      .startComplete .keyring, .startComplete .name, .startComplete .chain,
      .observerDone, .phaseComplete], by decide, by decide⟩
  · exact ⟨[.startComplete .chain, .startComplete .preference,
      .startComplete .keyring, .startComplete .name, .startComplete .indexing,
      .observerDone, .phaseComplete], by decide, by decide⟩

/-- Witness for the amended C7: in a concrete permitted execution, the
preference service's start completion precedes the phase completion. -/
theorem start_phase_orderings_witness :
    precedes
      [.startComplete .indexing, .startComplete .preference,
       .startComplete .keyring, .startComplete .name, .startComplete .chain,
       .observerDone, .phaseComplete]
      (.startComplete .preference) .phaseComplete :=
  start_phase_orderings.1
    [.startComplete .indexing, .startComplete .preference,
     .startComplete .keyring, .startComplete .name, .startComplete .chain,
     .observerDone, .phaseComplete]
    (by decide) .preference (by decide)

/-! ## Restoring the persisted snapshot in `Main.create`

Embedding of the `savedReduxState` computation of `Main.create`
(`src/background/main.ts` lines 147-164). The blob store may hold no
value under the key `"state"` (`stored = none`) or some text. The code
reads the flag, destructures `state`, and — only when `state` is truthy —
decodes it: a decode failure (thrown ParseError) propagates out of
`create`, and a decoded value that is not a non-null `typeof "object"`
value raises the explicit `Unexpected JSON persisted for state` error.
JS truthiness of the text: the empty string is falsy, all other strings
are truthy. -/

def jsTruthyText : PersistedText → Bool
  | .emptyStr => false
  | .invalid _ => true
  | .wire _ => true

/-- JS `typeof restoredState === "object" && restoredState !== null`:
holds of mappings and of sequences (JS arrays have `typeof "object"`),
fails for `null` and every other primitive. -/
def isObjectNonNull : JSValue → Bool
  | .obj _ => true
  | .arr _ => true
  | _ => false

/-- The initial redux state computed by `Main.create` (lines 147-164),
with a thrown error as the `Except.error` branch. -/
def mainCreateSavedReduxState (readReduxCache : String)
    (stored : Option PersistedText) : Except String JSValue :=
  if readReduxCache = "true" then
    match stored with
    | none => .ok (JSValue.obj [])
    | some state =>
      if jsTruthyText state then
        match decodeJSON state with
        | .error e => .error e
        | .ok restoredState =>
          if isObjectNonNull restoredState then .ok restoredState
          else .error "Unexpected JSON persisted for state"
      else .ok (JSValue.obj [])
  else .ok (JSValue.obj [])

/-- C8, counterexample: with `READ_REDUX_CACHE = "true"` and a persisted
snapshot equal to the empty string — a snapshot that exists but is
malformed, since the codec cannot decode it — `Main.create` silently
falls back to the empty initial state instead of failing. -/
theorem snapshot_restore_counterexample :
    mainCreateSavedReduxState "true" (some .emptyStr) = .ok (JSValue.obj []) ∧
    (∃ e, decodeJSON PersistedText.emptyStr = .error e) := by
  exact ⟨rfl, ⟨"ParseError", rfl⟩⟩

/-- C8, amended: when the flag is not `"true"` the store starts empty;
when it is `"true"`, an absent snapshot and the empty-string snapshot
both yield the empty initial state, and a nonempty snapshot is decoded
and used when it decodes to a non-null object — otherwise (decode error
or a non-object decode) creation fails with a surfaced error; a nonempty
malformed snapshot is never silently replaced by the empty state. -/
theorem snapshot_restore_gating (readReduxCache : String)
    (stored : Option PersistedText) :
    (readReduxCache ≠ "true" →
      mainCreateSavedReduxState readReduxCache stored = .ok (JSValue.obj [])) ∧
    (readReduxCache = "true" → stored = none →
      mainCreateSavedReduxState readReduxCache stored = .ok (JSValue.obj [])) ∧
    (readReduxCache = "true" → stored = some .emptyStr →
      mainCreateSavedReduxState readReduxCache stored = .ok (JSValue.obj [])) ∧
    (readReduxCache = "true" → ∀ t, stored = some t → jsTruthyText t = true →
      (∀ v, decodeJSON t = .ok v → isObjectNonNull v = true →
        mainCreateSavedReduxState readReduxCache stored = .ok v) ∧
      (∀ v, decodeJSON t = .ok v → isObjectNonNull v = false →
        ∃ e, mainCreateSavedReduxState readReduxCache stored = .error e) ∧
      (∀ e, decodeJSON t = .error e →
        ∃ e', mainCreateSavedReduxState readReduxCache stored = .error e')) := by
  refine ⟨?_, ?_, ?_, ?_⟩
  · intro hflag
    simp [mainCreateSavedReduxState, hflag]
  · intro hflag hstored
    simp [mainCreateSavedReduxState, hflag, hstored]
  · intro hflag hstored
    simp [mainCreateSavedReduxState, hflag, hstored, jsTruthyText]
  · intro hflag t hstored htruthy
    refine ⟨?_, ?_, ?_⟩
    · intro v hdec hobj
      simp [mainCreateSavedReduxState, hflag, hstored, htruthy, hdec, hobj]
    · intro v hdec hobj
      exact ⟨"Unexpected JSON persisted for state",
        by simp [mainCreateSavedReduxState, hflag, hstored, htruthy, hdec, hobj]⟩
    · intro e hdec
      exact ⟨e, by simp [mainCreateSavedReduxState, hflag, hstored, htruthy, hdec]⟩

/-- Witness for the amended C8: a persisted snapshot encoding the mapping
`{a: bigint 10}` is decoded and used as the initial state when the read
flag is on. -/
theorem snapshot_restore_gating_witness :
    mainCreateSavedReduxState "true"
        (some (encodeJSON (JSValue.obj [("a", JSValue.bigint 10)]))) =
      .ok (JSValue.obj [("a", JSValue.bigint 10)]) := by
  have h := (snapshot_restore_gating "true"
      (some (encodeJSON (JSValue.obj [("a", JSValue.bigint 10)])))).2.2.2
    rfl (encodeJSON (JSValue.obj [("a", JSValue.bigint 10)])) rfl rfl
  exact h.1 (JSValue.obj [("a", JSValue.bigint 10)])
    (by simp [encodeJSON, decodeJSON, decodeWire_encodeWire]) rfl

/-! ## `adaptForUI`

Embedding of `adaptForUI` (`src/background/redux-slices/utils.ts` lines
178-196). A JS object is an association list in property-insertion order;
`Object.keys(item)` is `objKeys item`; a property read is `objLookup`;
the `in` test is an `isSome` lookup (it also sees properties whose stored
value is `undefined`, which the optional fields of `UIAdaptationMap` make
possible — hence the registered value type `Option (UIAdaptationEntry V)`
and the source's explicit `keyAdjustment === undefined` branch); the
spread `{...previousValue, [name]: value}` updates the property in place
when present and appends it otherwise (`spreadInsert`). The reducer
callback is lifted to the named function `adaptForUIStep`. -/

structure UIAdaptationEntry (V : Type) where
  readableName : String
  transformer : V → String
  detailTransformer : V → String

def objKeys {V : Type} (item : List (String × V)) : List String :=
  item.map Prod.fst

def objLookup {V : Type} : List (String × V) → String → Option V
  | [], _ => none
  | p :: rest, key => if p.1 = key then some p.2 else objLookup rest key

/-- JS object spread `{...o, [k]: v}`. -/
def spreadInsert (o : List (String × String)) (k : String) (v : String) :
    List (String × String) :=
  if (objLookup o k).isSome then
    o.map (fun p => if p.1 = k then (k, v) else p)
  else o ++ [(k, v)]

/-- The reducer callback of utils.ts lines 180-195. -/
def adaptForUIStep {V : Type}
    (keysMap : List (String × Option (UIAdaptationEntry V)))
    (item : List (String × V)) (previousValue : List (String × String))
    (key : String) : List (String × String) :=
  match objLookup keysMap key with
  | none => previousValue
  | some none => previousValue
  | some (some keyAdjustment) =>
    match objLookup item key with
    | none => previousValue
    | some v =>
      spreadInsert previousValue keyAdjustment.readableName
        (keyAdjustment.transformer v)

/-- `adaptForUI(keysMap, item)` (utils.ts lines 178-196): a left fold of
the reducer callback over `Object.keys(item)` starting from `{}`. The
model is pure, so `item` is returned untouched by construction, which is
the claim's non-mutation clause. -/
def adaptForUI {V : Type}
    (keysMap : List (String × Option (UIAdaptationEntry V)))
    (item : List (String × V)) : List (String × String) :=
  (objKeys item).foldl (adaptForUIStep keysMap item) []

/-- The result-object property that processing `key` writes, if any:
present exactly when `key` has a defined `keysMap` entry and a value in
`item`. -/
def writtenName {V : Type}
    (keysMap : List (String × Option (UIAdaptationEntry V)))
    (item : List (String × V)) (key : String) : Option (String × String) :=
  match objLookup keysMap key with
  | none => none
  | some none => none
  | some (some adj) =>
    match objLookup item key with
    | none => none
    | some v => some (adj.readableName, adj.transformer v)

/-- The `readableName`s written while processing the keys `ks`. -/
def writtenNames {V : Type}
    (keysMap : List (String × Option (UIAdaptationEntry V)))
    (item : List (String × V)) (ks : List String) : List String :=
  ks.filterMap (fun key => (writtenName keysMap item key).map Prod.fst)

theorem adaptForUIStep_eq_writtenName {V : Type}
    (keysMap : List (String × Option (UIAdaptationEntry V)))
    (item : List (String × V)) (acc : List (String × String)) (key : String) :
    adaptForUIStep keysMap item acc key =
      match writtenName keysMap item key with
      | some nv => spreadInsert acc nv.1 nv.2
      | none => acc := by
  cases h1 : objLookup keysMap key with
  | none => simp [adaptForUIStep, writtenName, h1]
  | some o =>
    cases o with
    | none => simp [adaptForUIStep, writtenName, h1]
    | some adj =>
      cases h2 : objLookup item key with
      | none => simp [adaptForUIStep, writtenName, h1, h2]
      | some v => simp [adaptForUIStep, writtenName, h1, h2]

theorem writtenName_eq_some {V : Type}
    {keysMap : List (String × Option (UIAdaptationEntry V))}
    {item : List (String × V)} {key : String} {nv : String × String}
    (h : writtenName keysMap item key = some nv) :
    ∃ adj v, objLookup keysMap key = some (some adj) ∧
      objLookup item key = some v ∧
      nv = (adj.readableName, adj.transformer v) := by
  cases h1 : objLookup keysMap key with
  | none => simp [writtenName, h1] at h
  | some o =>
    cases o with
    | none => simp [writtenName, h1] at h
    | some adj =>
      cases h2 : objLookup item key with
      | none => simp [writtenName, h1, h2] at h
      | some v =>
        simp only [writtenName, h1, h2] at h
        injection h with h'
        exact ⟨adj, v, rfl, rfl, h'.symm⟩

theorem objLookup_map_update (o : List (String × String)) (k v nm : String) :
    objLookup (o.map (fun p => if p.1 = k then (k, v) else p)) nm =
      if nm = k then (if (objLookup o k).isSome then some v else none)
      else objLookup o nm := by
  induction o with
  | nil => simp [objLookup]
  | cons p rest ih =>
    obtain ⟨a, b⟩ := p
    by_cases hak : a = k
    · subst hak
      by_cases hnm : nm = a
      · subst hnm
        simp [objLookup]
      · have hanm : ¬ a = nm := fun h => hnm h.symm
        simp [objLookup, hnm, hanm, ih]
    · by_cases hanm : a = nm
      · subst hanm
        simp [objLookup, hak]
      · simp [objLookup, hak, hanm, ih]

theorem objLookup_append {V : Type} (o1 o2 : List (String × V)) (nm : String) :
    objLookup (o1 ++ o2) nm = (objLookup o1 nm).or (objLookup o2 nm) := by
  induction o1 with
  | nil => simp [objLookup]
  | cons p rest ih =>
    obtain ⟨a, b⟩ := p
    by_cases hanm : a = nm
    · simp [objLookup, hanm]
    · simp [objLookup, hanm, ih]

theorem objLookup_spreadInsert (o : List (String × String)) (k v nm : String) :
    objLookup (spreadInsert o k v) nm =
      if nm = k then some v else objLookup o nm := by
  by_cases hp : (objLookup o k).isSome
  · rw [spreadInsert, if_pos hp, objLookup_map_update]
    by_cases hnm : nm = k
    · simp [hnm, hp]
    · simp [hnm]
  · rw [spreadInsert, if_neg hp, objLookup_append]
    by_cases hnm : nm = k
    · subst hnm
      have h0 : objLookup o nm = none := Option.not_isSome_iff_eq_none.mp hp
      simp [h0, objLookup]
    · have hknm : ¬ k = nm := fun h => hnm h.symm
      cases ho : objLookup o nm with
      | none => simp [ho, objLookup, hknm, hnm]
      | some x => simp [ho, hnm]

theorem mem_objKeys_of_lookup {V : Type} {item : List (String × V)}
    {k : String} {v : V} (h : objLookup item k = some v) : k ∈ objKeys item := by
  induction item with
  | nil => simp [objLookup] at h
  | cons p rest ih =>
    obtain ⟨a, b⟩ := p
    by_cases hak : a = k
    · simp [objKeys, hak]
    · simp only [objLookup, hak, if_neg, if_false] at h
      simp [objKeys] at ih ⊢
      exact Or.inr (ih h)

theorem mem_of_objLookup {V : Type} {l : List (String × V)} {k : String} {x : V}
    (h : objLookup l k = some x) : (k, x) ∈ l := by
  induction l with
  | nil => simp [objLookup] at h
  | cons p rest ih =>
    obtain ⟨a, b⟩ := p
    by_cases hak : a = k
    · subst hak
      simp [objLookup] at h
      simp [h]
    · simp only [objLookup, hak, if_neg, if_false] at h
      exact List.mem_cons_of_mem _ (ih h)

theorem objLookup_of_mem_nodup {V : Type} {l : List (String × V)} {k : String}
    {x : V} (hnodup : (l.map Prod.fst).Nodup) (hmem : (k, x) ∈ l) :
    objLookup l k = some x := by
  induction l with
  | nil => simp at hmem
  | cons p rest ih =>
    obtain ⟨a, b⟩ := p
    simp only [List.map_cons, List.nodup_cons] at hnodup
    rcases List.mem_cons.mp hmem with heq | hmem'
    · injection heq with hk hx
      subst hk
      subst hx
      simp [objLookup]
    · have hak : ¬ a = k := by
        intro h
        subst h
        exact hnodup.1 (List.mem_map.mpr ⟨(a, x), hmem', rfl⟩)
      simp only [objLookup, hak, if_false]
      exact ih hnodup.2 hmem'

theorem foldl_adaptForUIStep_no_write {V : Type}
    (keysMap : List (String × Option (UIAdaptationEntry V)))
    (item : List (String × V)) (nm : String) :
    ∀ (ks : List String) (acc : List (String × String)),
      (∀ key ∈ ks, ∀ nv, writtenName keysMap item key = some nv → nv.1 ≠ nm) →
      objLookup (ks.foldl (adaptForUIStep keysMap item) acc) nm =
        objLookup acc nm := by
  intro ks
  induction ks with
  | nil => intro acc _; rfl
  | cons key rest ih =>
    intro acc h
    rw [List.foldl_cons,
      ih _ (fun key' hk' => h key' (List.mem_cons_of_mem _ hk')),
      adaptForUIStep_eq_writtenName]
    cases hw : writtenName keysMap item key with
    | none => rfl
    | some nv =>
      rw [objLookup_spreadInsert]
      exact if_neg (fun heq => h key (List.mem_cons_self _ _) nv hw heq.symm)

theorem foldl_adaptForUIStep_write {V : Type}
    (keysMap : List (String × Option (UIAdaptationEntry V)))
    (item : List (String × V)) (key : String) (nv : String × String)
    (hw : writtenName keysMap item key = some nv) :
    ∀ (ks : List String) (acc : List (String × String)), key ∈ ks →
      (writtenNames keysMap item ks).Nodup →
      objLookup (ks.foldl (adaptForUIStep keysMap item) acc) nv.1 =
        some nv.2 := by
  intro ks
  induction ks with
  | nil => intro acc hk _; simp at hk
  | cons k0 rest ih =>
    intro acc hk hnodup
    rw [List.foldl_cons]
    by_cases heq : key = k0
    · subst heq
      have hcons : writtenNames keysMap item (key :: rest) =
          nv.1 :: writtenNames keysMap item rest := by
        simp [writtenNames, List.filterMap_cons, hw]
      rw [hcons, List.nodup_cons] at hnodup
      have hrest : ∀ key' ∈ rest, ∀ nv',
          writtenName keysMap item key' = some nv' → nv'.1 ≠ nv.1 := by
        intro key' hk' nv' hw' heq1
        exact hnodup.1 (heq1 ▸ List.mem_filterMap.mpr
          ⟨key', hk', by simp [hw']⟩)
      rw [foldl_adaptForUIStep_no_write keysMap item nv.1 rest _ hrest,
        adaptForUIStep_eq_writtenName, hw, objLookup_spreadInsert, if_pos rfl]
    · have hmem : key ∈ rest := by
        rcases List.mem_cons.mp hk with h | h
        · exact absurd h heq
        · exact h
      have hrestNodup : (writtenNames keysMap item rest).Nodup := by
        cases hw0 : writtenName keysMap item k0 with
        | none => simpa [writtenNames, List.filterMap_cons, hw0] using hnodup
        | some nv0 =>
          have hcons : writtenNames keysMap item (k0 :: rest) =
              nv0.1 :: writtenNames keysMap item rest := by
            simp [writtenNames, List.filterMap_cons, hw0]
          rw [hcons, List.nodup_cons] at hnodup
          exact hnodup.2
      exact ih _ hmem hrestNodup

/-- The property C10 asserts of `adaptForUI` at a given `keysMap` and
`item`: the result has a property under exactly the `readableName`s of
the defined `keysMap` entries whose key occurs in `item` (so keys of
`item` without a `keysMap` entry never appear), and under each such name
it holds that entry's transformer applied to `item`'s value at that key.
-/
def AdaptForUISpec {V : Type}
    (keysMap : List (String × Option (UIAdaptationEntry V)))
    (item : List (String × V)) : Prop :=
  (∀ k adj v, (k, some adj) ∈ keysMap → objLookup item k = some v →
    objLookup (adaptForUI keysMap item) adj.readableName =
      some (adj.transformer v)) ∧
  (∀ nm : String,
    (∀ k adj, (k, some adj) ∈ keysMap → k ∈ objKeys item →
      adj.readableName ≠ nm) →
    objLookup (adaptForUI keysMap item) nm = none)

/-- C10, counterexample: two `keysMap` entries may share a
`readableName`. When both their keys occur in `item`, the later spread
overwrites the earlier one, so the result cannot map the shared name to
the first entry's transformed value as the claim demands for every
entry. -/
theorem adaptForUI_counterexample :
    ¬ AdaptForUISpec
      [("a", some ⟨"X", fun _ => "fa", fun _ => ""⟩),
       ("b", some ⟨"X", fun _ => "fb", fun _ => ""⟩)]
      [("a", (1 : Nat)), ("b", 2)] := by
  intro h
  have h1 := h.1 "a" ⟨"X", fun _ => "fa", fun _ => ""⟩ 1
    (List.Mem.head _) (by simp [objLookup])
  have h2 : objLookup
      (adaptForUI
        [("a", some ⟨"X", fun _ => "fa", fun _ => ""⟩),
         ("b", some (⟨"X", fun _ => "fb", fun _ => ""⟩ : UIAdaptationEntry Nat))]
        [("a", (1 : Nat)), ("b", 2)]) "X" = some "fb" := by
    simp [adaptForUI, objKeys, adaptForUIStep, objLookup, spreadInsert]
  rw [h1] at h2
  simp at h2

/-- C10, amended: provided the `keysMap` keys are distinct and the
`readableName`s of the entries applicable to `item` are pairwise
distinct (JS objects have unique keys, and without distinct names the
later write overwrites the earlier one), `adaptForUI keysMap item` has a
property under exactly the applicable `readableName`s, each holding the
entry's transformer applied to `item`'s value at the entry's key; keys
of `item` without a `keysMap` entry do not appear, and `item` itself is
returned untouched (the embedding is a pure function of it). -/
theorem adaptForUI_characterization {V : Type}
    (keysMap : List (String × Option (UIAdaptationEntry V)))
    (item : List (String × V))
    (hkeys : (keysMap.map Prod.fst).Nodup)
    (hnames : (writtenNames keysMap item (objKeys item)).Nodup) :
    AdaptForUISpec keysMap item := by
  constructor
  · intro k adj v hmem hlook
    have hkm : objLookup keysMap k = some (some adj) :=
      objLookup_of_mem_nodup hkeys hmem
    have hw : writtenName keysMap item k =
        some (adj.readableName, adj.transformer v) := by
      simp [writtenName, hkm, hlook]
    exact foldl_adaptForUIStep_write keysMap item k
      (adj.readableName, adj.transformer v) hw (objKeys item) []
      (mem_objKeys_of_lookup hlook) hnames
  · intro nm hno
    rw [adaptForUI, foldl_adaptForUIStep_no_write keysMap item nm (objKeys item) []]
    · rfl
    · intro key hkey nv hwnv heq
      obtain ⟨adj, v, hkm, hit, hnv⟩ := writtenName_eq_some hwnv
      exact hno key adj (mem_of_objLookup hkm) hkey
        (by rw [← heq, hnv])

/-- Witness for the amended C10: a one-entry `keysMap` renaming `value`
to `Amount` applied to an item with a `value` and a `hash` key yields the
transformed value under `Amount`. -/
theorem adaptForUI_characterization_witness :
    objLookup
      (adaptForUI [("value", some ⟨"Amount", fun _ : Nat => "1 ETH", fun _ => ""⟩)]
        [("value", (1 : Nat)), ("hash", 7)]) "Amount" = some "1 ETH" := by
  have h := adaptForUI_characterization
    [("value", some ⟨"Amount", fun _ : Nat => "1 ETH", fun _ => ""⟩)]
    [("value", (1 : Nat)), ("hash", 7)]
    (by simp)
    (by simp [writtenNames, objKeys, writtenName, objLookup])
  exact h.1 "value" ⟨"Amount", fun _ : Nat => "1 ETH", fun _ => ""⟩ 1
    (List.Mem.head _) (by simp [objLookup])

end Tally
